import Mathlib

/-!
# Verification of the node-encoding Base32 codec

A shallow embedding of the `ghosind/node-encoding` Base32 codec and proofs
about it. JavaScript strings are modelled as lists of UTF-16 code units
(`List Nat`); byte sequences as lists of naturals below 256. The validators
(`checkEncoder`, `checkPadChar` from `src/utils.ts`), the constructor and
`encodeLength` (the canonical `base32.ts`), and the historical-snapshot
`encodeLength` are translated directly from the source. The bit-packing
`encode`/`decode` routines are not present in the repository source tree
(only their tests and the specification describe them); they are modelled
from the specification, as marked on their definitions.
-/

namespace Base32

/-- A JavaScript string: its list of UTF-16 code units. -/
abbrev JSString := List Nat

/-- A JavaScript value passed where a string is expected: either a string or
some non-string value (number, object, undefined, ...), which the source
only inspects through `typeof x !== 'string'`. -/
inductive JSVal where
  | str (s : JSString)
  | nonString
deriving DecidableEq

/-- The validation errors thrown by `checkEncoder` and `checkPadChar`. -/
inductive CheckError where
  | invalidAlphabetLength
  | containsPadChar
  | containsNewline
  | invalidPadChar
deriving DecidableEq

/-- The decode-time error: a character of the input is absent from the
active alphabet. -/
inductive DecodeError where
  | invalidCharacter (c : Nat)
deriving DecidableEq

/-- UTF-8 byte count of one BMP code unit, as `TextEncoder` emits it:
1 byte below 0x80, 2 below 0x800, otherwise 3. -/
def utf8UnitLen (u : Nat) : Nat :=
  if u < 0x80 then 1 else if u < 0x800 then 2 else 3

/-- The length of `new TextEncoder().encode(s)`: UTF-8 byte count of a
UTF-16 code-unit sequence. A high surrogate followed by a low surrogate
encodes as one 4-byte code point; a lone surrogate becomes U+FFFD
(3 bytes). -/
def utf8Length : List Nat → Nat
  | [] => 0
  | u :: rest =>
    if 0xD800 ≤ u ∧ u ≤ 0xDBFF then
      match rest with
      | [] => 3
      | v :: rest2 =>
        if 0xDC00 ≤ v ∧ v ≤ 0xDFFF then 4 + utf8Length rest2
        else 3 + utf8Length (v :: rest2)
    else utf8UnitLen u + utf8Length rest

/-- `String.prototype.indexOf` restricted to a single code unit: the first
index at which `c` occurs in `l`, if any. -/
def listIndexOf (l : List Nat) (c : Nat) : Option Nat :=
  match l with
  | [] => none
  | x :: xs => if x = c then some 0 else (listIndexOf xs c).map (· + 1)

/-- The character loop of `checkEncoder` (`src/utils.ts` lines 19-26): for
each code unit in order, first compare the one-character string `charAt(i)`
with the pad string, then test for LF/CR. -/
def checkAlphaLoop (l : List Nat) (padChar : JSString) : Option CheckError :=
  match l with
  | [] => none
  | c :: rest =>
    if [c] = padChar then some .containsPadChar
    else if c = 10 ∨ c = 13 then some .containsNewline
    else checkAlphaLoop rest padChar

/-- `checkEncoder` from `src/utils.ts`: the alphabet (or `undefined`/`null`,
modelled as `none`, for which the optional chaining `encoder?.length`
yields `undefined`) must have both UTF-16 length and UTF-8 byte length
equal to `base`, then no character may equal the pad character or be a
newline. Returns the alphabet unchanged on success. -/
def checkEncoder (encoder : Option JSString) (padChar : JSString) (base : Nat) :
    Except CheckError JSString :=
  match encoder with
  | none => .error .invalidAlphabetLength
  | some e =>
    if e.length ≠ base ∨ utf8Length e ≠ base then .error .invalidAlphabetLength
    else
      match checkAlphaLoop e padChar with
      | some err => .error err
      | none => .ok e

/-- `checkPadChar` from `src/utils.ts`: a non-string yields the
"use default" sentinel (`none`); the empty string yields the empty
"padding disabled" marker; otherwise only the first code unit is kept and
must not be CR, LF, or above 0xFF. -/
def checkPadChar (padChar : JSVal) : Except CheckError (Option JSString) :=
  match padChar with
  | .nonString => .ok none
  | .str s =>
    match s with
    | [] => .ok (some [])
    | u :: _ =>
      if u = 13 ∨ u = 10 ∨ 0xff < u then .error .invalidPadChar
      else .ok (some [u])

/-- The standard Base32 alphabet `ABCDEFGHIJKLMNOPQRSTUVWXYZ234567`, as
code units. -/
def Base32StdEncoder : JSString :=
  [65, 66, 67, 68, 69, 70, 71, 72, 73, 74, 75, 76, 77, 78, 79, 80,
   81, 82, 83, 84, 85, 86, 87, 88, 89, 90, 50, 51, 52, 53, 54, 55]

/-- A 32-character alphabet that passes `checkEncoder` yet repeats `A`:
`AABCDEFGHIJKLMNOPQRSTUVWXYZ23456`. -/
def dupAlpha : JSString :=
  [65, 65, 66, 67, 68, 69, 70, 71, 72, 73, 74, 75, 76, 77, 78, 79,
   80, 81, 82, 83, 84, 85, 86, 87, 88, 89, 90, 50, 51, 52, 53, 54]

/-- A 32-character alphabet containing a line feed (position 0) before the
pad character `=` (position 1). -/
def nlAlpha : JSString :=
  [10, 61, 65, 66, 67, 68, 69, 70, 71, 72, 73, 74, 75, 76, 77, 78,
   79, 80, 81, 82, 83, 84, 85, 86, 87, 88, 89, 90, 50, 51, 52, 53]

/-- A 32-character alphabet containing the pad character `=` (position 0)
before a line feed (position 1). -/
def padFirstAlpha : JSString :=
  [61, 10, 66, 67, 68, 69, 70, 71, 72, 73, 74, 75, 76, 77, 78, 79,
   80, 81, 82, 83, 84, 85, 86, 87, 88, 89, 90, 50, 51, 52, 53, 54]

/-- The options object accepted by the `Base32Encoding` constructor.
A `none` field is an absent/`undefined` property. -/
structure Base32Options where
  encoder : Option JSString := none
  padChar : Option JSVal := none

/-- The `Base32Encoding` constructor (canonical `base32.ts`): resolve the
pad character first (absent property keeps the default `'='`; a sentinel
`undefined` result from `checkPadChar` also falls back to `'='`), then
validate the alphabet (a falsy — absent or empty — `encoder` option falls
back to the standard alphabet) against the resolved pad character.
Returns the stored `(encoder, padChar)` pair. -/
def mkBase32 (options : Option Base32Options) : Except CheckError (JSString × JSString) :=
  let padOpt : Option JSVal :=
    match options with
    | none => none
    | some o => o.padChar
  let step1 : Except CheckError (Option JSString) :=
    match padOpt with
    | none => .ok none
    | some v => checkPadChar v
  match step1 with
  | .error err => .error err
  | .ok pc =>
    let pad : JSString :=
      match pc with
      | some p => p
      | none => [61]
    let encArg : JSString :=
      match options with
      | none => Base32StdEncoder
      | some o =>
        match o.encoder with
        | none => Base32StdEncoder
        | some e => if e = [] then Base32StdEncoder else e
    match checkEncoder (some encArg) pad 32 with
    | .error err => .error err
    | .ok enc => .ok (enc, pad)

/-- `encodeLength` from the canonical `base32.ts`:
`Math.floor((len * 8 + 4) / 5)` without padding,
`Math.floor(Math.floor((len + 4) / 5) * 8)` with padding. Natural-number
division is the `Math.floor` of the exact quotient. -/
def encodeLength (len : Nat) (padChar : JSString) : Nat :=
  if padChar = [] then (len * 8 + 4) / 5
  else ((len + 4) / 5) * 8

/-- `encodeLength` from the historical snapshot in `src/base32.ts`:
`Math.floor(((len + 4) / 5) * 8)` with padding — no inner `Math.floor`, so
the exact value of the JavaScript expression is `(len + 4) * 8 / 5`, and
the single floor gives `(8 * (len + 4)) / 5` in natural-number division. -/
def encodeLengthSnap (len : Nat) (padChar : JSString) : Nat :=
  if padChar = [] then (len * 8 + 4) / 5
  else (8 * (len + 4)) / 5

/-- Alphabet lookup: direct index into the alphabet (position = 5-bit
value). -/
def alphaChar (alpha : JSString) (v : Nat) : Nat :=
  alpha.getD v 0

/-- Modelled from the spec: the inner `while buffered ≥ 5` loop of encode —
repeatedly extract the top five buffered bits (`acc >> (bits - 5) & 31`)
and map them through the alphabet. The accumulator itself is left as is;
stale high bits are removed by the mask. -/
def drain (alpha : JSString) (acc : Nat) : Nat → List Nat
  | bits + 5 => alphaChar alpha (acc / 2 ^ bits % 32) :: drain alpha acc bits
  | _ => []

/-- Modelled from the spec: the byte loop of encode. Each input byte is
shifted into the accumulator (8 more buffered bits), the ≥5-bit groups are
drained (leaving `(bits + 8) % 5` buffered bits), and a final partial group
of 1-4 bits is left-shifted into a 5-bit slot. The repository source has no
encode routine (only tests call it); this follows spec section 4.2. -/
def encodeBody (alpha : JSString) : List Nat → Nat → Nat → List Nat
  | [], acc, bits => if bits = 0 then [] else [alphaChar alpha (acc * 2 ^ (5 - bits) % 32)]
  | b :: rest, acc, bits =>
      drain alpha (acc * 256 + b) (bits + 8) ++
        encodeBody alpha rest (acc * 256 + b) ((bits + 8) % 5)

/-- Modelled from the spec: `encode`. Empty input returns the empty string;
otherwise the bit-packed body, right-padded (when a pad character is
configured) up to `ceil(len/5) * 8` characters. The repository source has
no encode routine; this follows spec sections 4.2 and 8. -/
def encode (alpha padChar : JSString) (data : List Nat) : JSString :=
  if data.isEmpty then []
  else
    let body := encodeBody alpha data 0 0
    match padChar with
    | [] => body
    | u :: _ => body ++ List.replicate (((data.length + 4) / 5) * 8 - body.length) u

/-- Modelled from the spec: the inner `while buffered ≥ 8` loop of decode —
repeatedly extract the top eight buffered bits as one output byte. -/
def drainBytes (acc : Nat) : Nat → List Nat
  | bits + 8 => acc / 2 ^ bits % 256 :: drainBytes acc bits
  | _ => []

/-- Modelled from the spec: the character loop of decode. Each character is
looked up in the alphabet (failing with `InvalidCharacter` when absent),
five bits are appended to the accumulator, full bytes are extracted
(leaving `(bits + 5) % 8` buffered bits), and a trailing partial group is
discarded. The repository source has no decode routine; this follows spec
section 4.2. -/
def decodeBody (alpha : JSString) : List Nat → Nat → Nat → Except DecodeError (List Nat)
  | [], _, _ => .ok []
  | c :: rest, acc, bits =>
    match listIndexOf alpha c with
    | none => .error (.invalidCharacter c)
    | some idx =>
      match decodeBody alpha rest (acc * 32 + idx) ((bits + 5) % 8) with
      | .error e => .error e
      | .ok out => .ok (drainBytes (acc * 32 + idx) (bits + 5) ++ out)

/-- Modelled from the spec: `decode`. Empty input returns empty output;
with padding enabled, an input ending in the pad character is cut at the
first occurrence of the pad character; the remaining prefix is bit-unpacked.
The repository source has no decode routine; this follows spec section
4.2. -/
def decode (alpha padChar : JSString) (text : JSString) : Except DecodeError (List Nat) :=
  if text.isEmpty then .ok []
  else
    let eff : JSString :=
      match padChar with
      | [] => text
      | u :: _ =>
        if text.getLast? = some u then
          match listIndexOf text u with
          | some i => text.take i
          | none => text
        else text
    decodeBody alpha eff 0 0

/-- Re-inject a `checkPadChar` result as an input value: the `undefined`
sentinel is a non-string, a returned string is a string. -/
def padResultToInput : Option JSString → JSVal
  | none => .nonString
  | some s => .str s

/-- Ceiling division on naturals, for stating the spec's `ceil(a / b)`. -/
def ceilDiv (a b : Nat) : Nat := (a + b - 1) / b

instance {ε α : Type} [DecidableEq ε] [DecidableEq α] : DecidableEq (Except ε α) :=
  fun x y =>
    match x, y with
    | .ok a, .ok b => decidable_of_iff (a = b) (by simp)
    | .error a, .error b => decidable_of_iff (a = b) (by simp)
    | .ok _, .error _ => .isFalse (by simp)
    | .error _, .ok _ => .isFalse (by simp)

/-! ## Helper lemmas -/

/-- Fewer than five buffered bits: the encode drain loop emits nothing. -/
lemma drain_of_lt (alpha : JSString) (acc : Nat) (bits : Nat) (h : bits < 5) :
    drain alpha acc bits = [] := by
  interval_cases bits <;> rfl

/-- One step of the encode drain loop. -/
lemma drain_add5 (alpha : JSString) (acc : Nat) (b : Nat) :
    drain alpha acc (b + 5) = alphaChar alpha (acc / 2 ^ b % 32) :: drain alpha acc b := rfl

/-- If a character was emitted by the encode drain loop, it is an alphabet
entry at some 5-bit value. -/
lemma drain_mem (alpha : JSString) (acc : Nat) :
    ∀ bits c, c ∈ drain alpha acc bits → ∃ v, v < 32 ∧ c = alphaChar alpha v := by
  intro bits
  induction bits using Nat.strong_induction_on with
  | _ bits ih =>
    intro c hc
    by_cases h5 : bits < 5
    · rw [drain_of_lt alpha acc bits h5] at hc
      simp at hc
    · obtain ⟨b, rfl⟩ : ∃ b, bits = b + 5 := ⟨bits - 5, by omega⟩
      rw [drain_add5] at hc
      rcases List.mem_cons.1 hc with h | h
      · exact ⟨acc / 2 ^ b % 32, Nat.mod_lt _ (by norm_num), h⟩
      · exact ih b (by omega) c h

/-- Every character emitted by the encode body is an alphabet entry at some
5-bit value. -/
lemma encodeBody_mem (alpha : JSString) :
    ∀ (data : List Nat) (acc bits c : Nat), c ∈ encodeBody alpha data acc bits →
      ∃ v, v < 32 ∧ c = alphaChar alpha v := by
  intro data
  induction data with
  | nil =>
    intro acc bits c hc
    simp only [encodeBody] at hc
    split at hc
    · simp at hc
    · rcases List.mem_singleton.1 hc with rfl
      exact ⟨acc * 2 ^ (5 - bits) % 32, Nat.mod_lt _ (by norm_num), rfl⟩
  | cons b rest ih =>
    intro acc bits c hc
    simp only [encodeBody, List.mem_append] at hc
    rcases hc with h | h
    · exact drain_mem alpha _ _ c h
    · exact ih _ _ c h

/-- An alphabet entry at an in-range position is a member of the alphabet. -/
lemma alphaChar_mem (alpha : JSString) (v : Nat) (hv : v < alpha.length) :
    alphaChar alpha v ∈ alpha := by
  unfold alphaChar
  rw [List.getD_eq_getElem alpha 0 hv]
  exact List.getElem_mem hv

/-- The encode body of a nonempty input is nonempty. -/
lemma encodeBody_ne_nil (alpha : JSString) (b : Nat) (rest : List Nat) (acc bits : Nat) :
    encodeBody alpha (b :: rest) acc bits ≠ [] := by
  simp only [encodeBody]
  have : bits + 8 = (bits + 3) + 5 := by omega
  rw [this, drain_add5]
  simp

/-- Looking up the alphabet entry at `v` in a duplicate-free alphabet finds
exactly position `v`. -/
lemma listIndexOf_getD (l : List Nat) (hnd : l.Nodup) :
    ∀ v, v < l.length → listIndexOf l (l.getD v 0) = some v := by
  induction l with
  | nil => intro v hv; simp at hv
  | cons x xs ih =>
    intro v hv
    match v with
    | 0 => simp [listIndexOf]
    | w + 1 =>
      have hw : w < xs.length := by simpa using hv
      have hmem : xs.getD w 0 ∈ xs := by
        rw [List.getD_eq_getElem xs 0 hw]; exact List.getElem_mem hw
      have hx : x ∉ xs := (List.nodup_cons.1 hnd).1
      have hne : x ≠ xs.getD w 0 := fun h => hx (h ▸ hmem)
      simp only [List.getD_cons_succ, listIndexOf, if_neg hne,
        ih (List.nodup_cons.1 hnd).2 w hw, Option.map_some']

/-- First occurrence of `u` in `l1 ++ u :: l2` when `u` misses `l1`: right
at the end of `l1`. -/
lemma listIndexOf_append_self (u : Nat) :
    ∀ (l1 : List Nat), u ∉ l1 → ∀ l2, listIndexOf (l1 ++ u :: l2) u = some l1.length := by
  intro l1
  induction l1 with
  | nil => intro _ l2; simp [listIndexOf]
  | cons x xs ih =>
    intro hu l2
    have hx : x ≠ u := fun h => hu (h ▸ List.mem_cons_self x xs)
    have hxs : u ∉ xs := fun h => hu (List.mem_cons_of_mem x h)
    simp only [List.cons_append, listIndexOf, if_neg hx, List.append_eq, ih hxs l2,
      Option.map_some', List.length_cons]

/-- The character loop of `checkEncoder` never reports the length error. -/
lemma checkAlphaLoop_ne_len (p : JSString) :
    ∀ l, checkAlphaLoop l p ≠ some .invalidAlphabetLength := by
  intro l
  induction l with
  | nil => simp [checkAlphaLoop]
  | cons c rest ih =>
    simp only [checkAlphaLoop]
    split
    · simp
    · split
      · simp
      · exact ih

/-- A clean pass of the character loop means no character matches the pad
string. -/
lemma checkAlphaLoop_none (p : JSString) :
    ∀ l, checkAlphaLoop l p = none → ∀ c ∈ l, [c] ≠ p := by
  intro l
  induction l with
  | nil => intro _ c hc; simp at hc
  | cons x rest ih =>
    intro h c hc
    simp only [checkAlphaLoop] at h
    split at h
    · exact absurd h (by simp)
    · split at h
      · exact absurd h (by simp)
      · rcases List.mem_cons.1 hc with rfl | hc
        · assumption
        · exact ih h c hc

/-- Unpacking a successful `checkEncoder`: the result is the input, the
UTF-16 length is `base`, and the loop was clean. -/
lemma checkEncoder_ok (e p : JSString) (base : Nat) (a : JSString)
    (h : checkEncoder (some e) p base = .ok a) :
    a = e ∧ e.length = base ∧ utf8Length e = base ∧ checkAlphaLoop e p = none := by
  simp only [checkEncoder] at h
  split at h
  · exact absurd h (by simp)
  · rename_i hlen
    push_neg at hlen
    split at h
    · exact absurd h (by simp)
    · rename_i hloop
      cases h
      exact ⟨rfl, hlen.1, hlen.2, hloop⟩

/-- One byte drained from the decode loop. -/
lemma drainBytes_add8 (acc : Nat) (b : Nat) :
    drainBytes acc (b + 8) = acc / 2 ^ b % 256 :: drainBytes acc b := rfl

/-- Fewer than eight buffered bits: the decode drain loop emits nothing. -/
lemma drainBytes_of_lt (acc : Nat) (bits : Nat) (h : bits < 8) :
    drainBytes acc bits = [] := by
  interval_cases bits <;> rfl

/-- Alphabet lookup inverts alphabet indexing on a duplicate-free 32-entry
alphabet. -/
lemma listIndexOf_alphaChar (alpha : JSString) (hlen : alpha.length = 32) (hnd : alpha.Nodup)
    (v : Nat) (hv : v < 32) : listIndexOf alpha (alphaChar alpha v) = some v := by
  unfold alphaChar
  exact listIndexOf_getD alpha hnd v (by omega)

/-- One decode step on a character present in the alphabet. -/
lemma decodeBody_cons_found (alpha : JSString) (c : Nat) (rest : List Nat) (acc bits idx : Nat)
    (h : listIndexOf alpha c = some idx) (out : List Nat)
    (hrec : decodeBody alpha rest (acc * 32 + idx) ((bits + 5) % 8) = .ok out) :
    decodeBody alpha (c :: rest) acc bits =
      .ok (drainBytes (acc * 32 + idx) (bits + 5) ++ out) := by
  simp only [decodeBody, h, hrec]


/-- The encode drain loop at each concrete buffered-bit count 8-12. -/
lemma drain_8 (alpha : JSString) (acc : Nat) :
    drain alpha acc 8 = [alphaChar alpha (acc / 8 % 32)] := rfl

lemma drain_9 (alpha : JSString) (acc : Nat) :
    drain alpha acc 9 = [alphaChar alpha (acc / 16 % 32)] := rfl

lemma drain_10 (alpha : JSString) (acc : Nat) :
    drain alpha acc 10 = [alphaChar alpha (acc / 32 % 32), alphaChar alpha (acc / 1 % 32)] := rfl

lemma drain_11 (alpha : JSString) (acc : Nat) :
    drain alpha acc 11 = [alphaChar alpha (acc / 64 % 32), alphaChar alpha (acc / 2 % 32)] := rfl

lemma drain_12 (alpha : JSString) (acc : Nat) :
    drain alpha acc 12 = [alphaChar alpha (acc / 128 % 32), alphaChar alpha (acc / 4 % 32)] := rfl

/-- The decoder inverts the encode body. Mid-stream invariant: with
`bits ∈ [1, 4]` leftover encoder bits (the low `bits` bits of `acc`), the
decoder holds the other `8 - bits` bits of the byte being completed (the
low `8 - bits` bits of `dacc`), and the remaining characters decode to that
byte followed by the remaining data. -/
lemma decodeBody_encodeBody (alpha : JSString) (hlen : alpha.length = 32) (hnd : alpha.Nodup) :
    ∀ (data : List Nat), (∀ b ∈ data, b < 256) →
    ∀ (bits acc dacc : Nat), bits < 5 →
    decodeBody alpha (encodeBody alpha data acc bits) dacc ((8 - bits) % 8) =
      .ok (if bits = 0 then data
           else ((dacc % 2 ^ (8 - bits)) * 2 ^ bits + acc % 2 ^ bits) :: data) := by
  intro data
  induction data with
  | nil =>
    intro _ bits acc dacc hbits
    interval_cases bits
    · rfl
    all_goals {
      simp only [encodeBody]
      norm_num
      rw [decodeBody_cons_found alpha _ [] _ _ _
        (listIndexOf_alphaChar alpha hlen hnd _ (Nat.mod_lt _ (by norm_num))) [] rfl]
      norm_num [drainBytes_add8, drainBytes_of_lt]
      omega
    }
  | cons b rest ih =>
    intro hb bits acc dacc hbits
    have hblt : b < 256 := hb b (List.mem_cons_self b rest)
    have hbrest : ∀ x ∈ rest, x < 256 := fun x hx => hb x (List.mem_cons_of_mem b hx)
    interval_cases bits
    · -- bits = 0 : one character drained, 3 bits left over
      simp only [encodeBody]
      norm_num [drain_8]
      have hI := ih hbrest 3 (acc * 256 + b) (dacc * 32 + ((acc * 256 + b) / 8 % 32))
        (by norm_num)
      norm_num at hI
      rw [decodeBody_cons_found alpha _ _ _ _ _
        (listIndexOf_alphaChar alpha hlen hnd _ (Nat.mod_lt _ (by norm_num))) _ hI]
      norm_num [drainBytes_add8, drainBytes_of_lt]
      omega
    · -- bits = 1 : one character drained, 4 bits left over
      simp only [encodeBody]
      norm_num [drain_9]
      have hI := ih hbrest 4 (acc * 256 + b) (dacc * 32 + ((acc * 256 + b) / 16 % 32))
        (by norm_num)
      norm_num at hI
      rw [decodeBody_cons_found alpha _ _ _ _ _
        (listIndexOf_alphaChar alpha hlen hnd _ (Nat.mod_lt _ (by norm_num))) _ hI]
      norm_num [drainBytes_add8, drainBytes_of_lt]
      omega
    · -- bits = 2 : two characters drained, 0 bits left over
      simp only [encodeBody]
      norm_num [drain_10]
      have hI := ih hbrest 0 (acc * 256 + b)
        ((dacc * 32 + ((acc * 256 + b) / 32 % 32)) * 32 + ((acc * 256 + b) / 1 % 32))
        (by norm_num)
      norm_num at hI
      rw [decodeBody_cons_found alpha _ _ _ _ _
        (listIndexOf_alphaChar alpha hlen hnd _ (Nat.mod_lt _ (by norm_num))) _
        (decodeBody_cons_found alpha _ _ _ _ _
          (listIndexOf_alphaChar alpha hlen hnd _ (Nat.mod_lt _ (by norm_num))) _ hI)]
      norm_num [drainBytes_add8, drainBytes_of_lt]
      omega
    · -- bits = 3 : two characters drained, 1 bits left over
      simp only [encodeBody]
      norm_num [drain_11]
      have hI := ih hbrest 1 (acc * 256 + b)
        ((dacc * 32 + ((acc * 256 + b) / 64 % 32)) * 32 + ((acc * 256 + b) / 2 % 32))
        (by norm_num)
      norm_num at hI
      rw [decodeBody_cons_found alpha _ _ _ _ _
        (listIndexOf_alphaChar alpha hlen hnd _ (Nat.mod_lt _ (by norm_num))) _
        (decodeBody_cons_found alpha _ _ _ _ _
          (listIndexOf_alphaChar alpha hlen hnd _ (Nat.mod_lt _ (by norm_num))) _ hI)]
      norm_num [drainBytes_add8, drainBytes_of_lt]
      omega
    · -- bits = 4 : two characters drained, 2 bits left over
      simp only [encodeBody]
      norm_num [drain_12]
      have hI := ih hbrest 2 (acc * 256 + b)
        ((dacc * 32 + ((acc * 256 + b) / 128 % 32)) * 32 + ((acc * 256 + b) / 4 % 32))
        (by norm_num)
      norm_num at hI
      rw [decodeBody_cons_found alpha _ _ _ _ _
        (listIndexOf_alphaChar alpha hlen hnd _ (Nat.mod_lt _ (by norm_num))) _
        (decodeBody_cons_found alpha _ _ _ _ _
          (listIndexOf_alphaChar alpha hlen hnd _ (Nat.mod_lt _ (by norm_num))) _ hI)]
      norm_num [drainBytes_add8, drainBytes_of_lt]
      omega

/-- A successful `checkPadChar` that returns its own string input means the
input was empty or a single valid code unit. -/
lemma checkPadChar_self (pad : JSString) (h : checkPadChar (.str pad) = .ok (some pad)) :
    pad = [] ∨ ∃ u, pad = [u] := by
  cases pad with
  | nil => exact Or.inl rfl
  | cons u rest =>
    simp only [checkPadChar] at h
    split at h
    · exact absurd h (by simp)
    · refine Or.inr ⟨u, ?_⟩
      simp only [Except.ok.injEq, Option.some.injEq, List.cons.injEq, true_and] at h
      rw [← h]

/-- Round-trip for a validated configuration with a duplicate-free
alphabet. -/
theorem roundtrip (alpha pad : JSString) (data : List Nat)
    (hval : checkEncoder (some alpha) pad 32 = .ok alpha)
    (hpad : checkPadChar (.str pad) = .ok (some pad))
    (hnd : alpha.Nodup)
    (hdata : ∀ b ∈ data, b < 256) :
    decode alpha pad (encode alpha pad data) = .ok data := by
  obtain ⟨-, hlen, -, hloop⟩ := checkEncoder_ok alpha pad 32 alpha hval
  have hnotpad : ∀ c ∈ alpha, [c] ≠ pad := checkAlphaLoop_none pad alpha hloop
  cases data with
  | nil => rfl
  | cons d ds =>
    have hbne : encodeBody alpha (d :: ds) 0 0 ≠ [] := encodeBody_ne_nil alpha d ds 0 0
    have hdec : decodeBody alpha (encodeBody alpha (d :: ds) 0 0) 0 0 = .ok (d :: ds) := by
      have h0 := decodeBody_encodeBody alpha hlen hnd (d :: ds) hdata 0 0 0 (by norm_num)
      norm_num at h0
      exact h0
    have hmem : ∀ c ∈ encodeBody alpha (d :: ds) 0 0, c ∈ alpha := by
      intro c hc
      obtain ⟨v, hv, rfl⟩ := encodeBody_mem alpha (d :: ds) 0 0 c hc
      exact alphaChar_mem alpha v (by omega)
    rcases checkPadChar_self pad hpad with rfl | ⟨u, rfl⟩
    · -- padding disabled: the text is exactly the encode body
      simp only [encode, decode, List.isEmpty_cons, Bool.false_eq_true, if_false]
      rw [if_neg (by simpa using hbne)]
      exact hdec
    · -- padding enabled with pad unit u
      have hu : u ∉ alpha := fun hmem' => hnotpad u hmem' rfl
      have hubody : u ∉ encodeBody alpha (d :: ds) 0 0 := fun hbmem => hu (hmem u hbmem)
      simp only [encode, List.isEmpty_cons, Bool.false_eq_true, if_false]
      cases hk : ((d :: ds).length + 4) / 5 * 8 - (encodeBody alpha (d :: ds) 0 0).length with
      | zero =>
        simp only [List.replicate_zero, List.append_nil]
        simp only [decode]
        rw [if_neg (by simpa using hbne)]
        have hgl : ¬((encodeBody alpha (d :: ds) 0 0).getLast? = some u) := by
          intro hgl
          exact hubody (List.mem_of_mem_getLast? (Option.mem_def.mpr hgl))
        rw [if_neg hgl]
        exact hdec
      | succ m =>
        simp only [decode]
        rw [if_neg (by simp [List.isEmpty_iff, hbne])]
        have hgl : (encodeBody alpha (d :: ds) 0 0 ++ List.replicate (m + 1) u).getLast? =
            some u := by
          rw [List.replicate_succ' m u, ← List.append_assoc]
          exact List.getLast?_concat _
        rw [if_pos hgl]
        rw [List.replicate_succ]
        rw [listIndexOf_append_self u (encodeBody alpha (d :: ds) 0 0) hubody]
        show decodeBody alpha
            (List.take (encodeBody alpha (d :: ds) 0 0).length
              (encodeBody alpha (d :: ds) 0 0 ++ u :: List.replicate m u)) 0 0 =
          Except.ok (d :: ds)
        rw [List.take_left]
        exact hdec

/-! ## Claim theorems -/

/-- Claim C1 (amended): decoding the encoding of any byte sequence under a
validated configuration returns the byte sequence, provided the validated
alphabet is duplicate-free (validation itself does not reject duplicated
characters, and round-trip fails for them). -/
theorem decode_encode_roundtrip (alpha pad : JSString) (data : List Nat)
    (hval : checkEncoder (some alpha) pad 32 = .ok alpha)
    (hpad : checkPadChar (.str pad) = .ok (some pad))
    (hnd : alpha.Nodup)
    (hdata : ∀ b ∈ data, b < 256) :
    decode alpha pad (encode alpha pad data) = .ok data :=
  roundtrip alpha pad data hval hpad hnd hdata

/-- Claim C1 witness: round-trip on the bytes of `"foo"` with the standard
alphabet and pad `=`. -/
theorem decode_encode_roundtrip_witness :
    decode Base32StdEncoder [61] (encode Base32StdEncoder [61] [102, 111, 111]) =
      .ok [102, 111, 111] :=
  decode_encode_roundtrip Base32StdEncoder [61] [102, 111, 111]
    (by decide) (by decide) (by decide) (by decide)

/-- Claim C1 counterexample: `dupAlpha` passes validation with pad `=`, yet
the byte sequence `[8]` encodes to `AA======` which decodes to `[0]`, not
`[8]` — the claim fails for a validated alphabet with a repeated
character. -/
theorem decode_encode_roundtrip_cex :
    checkEncoder (some dupAlpha) [61] 32 = .ok dupAlpha ∧
    checkPadChar (.str [61]) = .ok (some [61]) ∧
    decode dupAlpha [61] (encode dupAlpha [61] [8]) = .ok [0] ∧
    decode dupAlpha [61] (encode dupAlpha [61] [8]) ≠ .ok [8] := by
  refine ⟨by decide, by decide, by decide, by decide⟩

/-- Claim C2: the canonical `encodeLength` is `ceil(len/5) * 8` with a pad
character and exactly `ceil(len*8/5)` without one. -/
theorem encodeLength_ceil (len : Nat) (p : JSString) :
    (p ≠ [] → encodeLength len p = ceilDiv len 5 * 8) ∧
    (p = [] → encodeLength len p = ceilDiv (len * 8) 5) := by
  unfold encodeLength ceilDiv
  constructor
  · intro hp
    rw [if_neg hp]
    omega
  · intro hp
    rw [if_pos hp]
    omega

/-- Claim C2 witness: both branches evaluated at `len = 7`. -/
theorem encodeLength_ceil_witness :
    encodeLength 7 [61] = ceilDiv 7 5 * 8 ∧ encodeLength 7 [] = ceilDiv (7 * 8) 5 :=
  ⟨(encodeLength_ceil 7 [61]).1 (by decide), (encodeLength_ceil 7 []).2 rfl⟩

/-- Claim C3 (amended): `checkEncoder` raises the invalid-alphabet-length
error exactly when the UTF-16 length or the UTF-8 byte length differs from
32 — the abstract (UTF-16) character count is checked too, so a 32-byte
input can still fail the length check. -/
theorem checkEncoder_len_error_iff (e p : JSString) :
    checkEncoder (some e) p 32 = .error .invalidAlphabetLength ↔
      (e.length ≠ 32 ∨ utf8Length e ≠ 32) := by
  simp only [checkEncoder]
  split
  · simpa using (by assumption)
  · rename_i hcond
    constructor
    · intro h
      split at h
      · rename_i err hloop
        exact absurd (Except.error.inj h ▸ hloop) (checkAlphaLoop_ne_len p e)
      · exact absurd h (by simp)
    · intro h
      exact absurd h hcond

/-- Claim C3 counterexample: sixteen copies of `é` (U+00E9) occupy exactly
32 UTF-8 bytes, yet `checkEncoder` raises the invalid-alphabet-length
error, because the UTF-16 length 16 also participates in the check. -/
theorem checkEncoder_len_error_cex :
    utf8Length (List.replicate 16 233) = 32 ∧
    checkEncoder (some (List.replicate 16 233)) [61] 32 = .error .invalidAlphabetLength := by
  refine ⟨by decide, by decide⟩

/-- The character loop reports the error of the first offending character:
pad-containment when that character equals the pad character (the pad test
runs first), newline otherwise. -/
lemma checkAlphaLoop_first_offender (p : JSString) :
    ∀ (l : List Nat) (i : Nat),
    (∀ j, j < i → [l.getD j 0] ≠ p ∧ l.getD j 0 ≠ 10 ∧ l.getD j 0 ≠ 13) →
    i < l.length →
    ([l.getD i 0] = p → checkAlphaLoop l p = some .containsPadChar) ∧
    ([l.getD i 0] ≠ p → (l.getD i 0 = 10 ∨ l.getD i 0 = 13) →
      checkAlphaLoop l p = some .containsNewline) := by
  intro l
  induction l with
  | nil => intro i _ hi; simp at hi
  | cons x xs ih =>
    intro i hclean hi
    match i with
    | 0 =>
      simp only [List.getD_cons_zero]
      constructor
      · intro hx
        simp only [checkAlphaLoop, if_pos hx]
      · intro hx hnl
        simp only [checkAlphaLoop, if_neg hx]
        rw [if_pos hnl]
    | j + 1 =>
      have h0 := hclean 0 (by omega)
      simp only [List.getD_cons_zero] at h0
      have hxs := ih j
        (fun k hk => by
          have hs := hclean (k + 1) (by omega)
          simpa using hs)
        (by simpa using hi)
      simp only [List.getD_cons_succ]
      simp only [checkAlphaLoop, if_neg h0.1]
      rw [if_neg (by tauto)]
      exact hxs

/-- Claim C4 (amended): for a correct-length alphabet, the per-character
loop tests the pad character before the newline characters at each index,
so the reported error is that of the earliest offending character: the
pad-containment error when it equals the pad character, the newline error
when it is a CR/LF different from the pad character. An alphabet whose
first offender is a newline placed before the pad occurrence therefore
fails with the newline error, not the pad error. -/
theorem checkEncoder_first_offender (e p : JSString) (i : Nat)
    (hlen : e.length = 32) (hutf : utf8Length e = 32)
    (hclean : ∀ j, j < i → [e.getD j 0] ≠ p ∧ e.getD j 0 ≠ 10 ∧ e.getD j 0 ≠ 13)
    (hi : i < e.length) :
    ([e.getD i 0] = p → checkEncoder (some e) p 32 = .error .containsPadChar) ∧
    ([e.getD i 0] ≠ p → (e.getD i 0 = 10 ∨ e.getD i 0 = 13) →
      checkEncoder (some e) p 32 = .error .containsNewline) := by
  have hL := checkAlphaLoop_first_offender p e i hclean hi
  constructor
  · intro hp
    simp only [checkEncoder]
    rw [if_neg (by push_neg; exact ⟨hlen, hutf⟩), hL.1 hp]
  · intro hp hnl
    simp only [checkEncoder]
    rw [if_neg (by push_neg; exact ⟨hlen, hutf⟩), hL.2 hp hnl]

/-- Claim C4 witness: in `padFirstAlpha` the pad character `=` sits at
position 0, before the line feed at position 1, and validation reports the
pad-containment error. -/
theorem checkEncoder_first_offender_witness :
    checkEncoder (some padFirstAlpha) [61] 32 = .error .containsPadChar :=
  (checkEncoder_first_offender padFirstAlpha [61] 0 (by decide) (by decide)
    (fun j hj => absurd hj (by omega)) (by decide)).1 (by decide)

/-- Claim C4 counterexample: `nlAlpha` has correct length and contains both
the pad character `=` (position 1) and a line feed (position 0); the claim
says validation must fail with the pad-containment error, but it fails
with the newline error because the line feed comes first. -/
theorem checkEncoder_first_offender_cex :
    nlAlpha.length = 32 ∧ utf8Length nlAlpha = 32 ∧
    61 ∈ nlAlpha ∧ 10 ∈ nlAlpha ∧
    checkEncoder (some nlAlpha) [61] 32 = .error .containsNewline ∧
    checkEncoder (some nlAlpha) [61] 32 ≠ .error .containsPadChar := by
  refine ⟨by decide, by decide, by decide, by decide, by decide, by decide⟩

/-- Claim C5: `checkPadChar` returns the use-default sentinel on a
non-string, the padding-disabled marker on the empty string, and otherwise
keeps only the first character of the input; it raises the invalid-pad
error exactly when that first character is CR, LF, or above `0xFF`. -/
theorem checkPadChar_cases :
    (checkPadChar .nonString = .ok none) ∧
    (checkPadChar (.str []) = .ok (some [])) ∧
    (∀ u rest,
      (checkPadChar (.str (u :: rest)) = .error .invalidPadChar ↔
        (u = 13 ∨ u = 10 ∨ 0xff < u)) ∧
      (u ≠ 13 → u ≠ 10 → u ≤ 0xff →
        checkPadChar (.str (u :: rest)) = .ok (some (List.take 1 (u :: rest))))) := by
  refine ⟨rfl, rfl, fun u rest => ⟨?_, ?_⟩⟩
  · simp only [checkPadChar]
    split
    · rename_i h
      simpa using h
    · rename_i h
      simpa using h
  · intro h13 h10 hff
    simp only [checkPadChar, List.take_succ_cons, List.take_zero]
    rw [if_neg (by omega)]

/-- Claim C5 witness: a two-character input is truncated to its first
character. -/
theorem checkPadChar_cases_witness :
    checkPadChar (.str [61, 33]) = .ok (some (List.take 1 [61, 33])) :=
  (checkPadChar_cases.2.2 61 [33]).2 (by decide) (by decide) (by decide)

/-- Claim C6: the constructor defaults the alphabet to the standard one and
the pad character to `=`, stores the empty marker for an explicitly empty
pad option, and validates both eagerly, surfacing any validation error at
construction. -/
theorem mkBase32_defaults :
    (mkBase32 none = .ok (Base32StdEncoder, [61])) ∧
    (mkBase32 (some ⟨none, none⟩) = .ok (Base32StdEncoder, [61])) ∧
    (mkBase32 (some ⟨none, some (.str [])⟩) = .ok (Base32StdEncoder, [])) ∧
    (∀ v err, checkPadChar v = .error err →
      mkBase32 (some ⟨none, some v⟩) = .error err) ∧
    (∀ enc err, enc ≠ [] → checkEncoder (some enc) [61] 32 = .error err →
      mkBase32 (some ⟨some enc, none⟩) = .error err) := by
  refine ⟨rfl, rfl, rfl, ?_, ?_⟩
  · intro v err h
    simp only [mkBase32, h]
  · intro enc err henc h
    simp only [mkBase32, if_neg henc, h]

/-- Claim C6 witness: an invalid pad option and an invalid alphabet option
both fail at construction. -/
theorem mkBase32_defaults_witness :
    mkBase32 (some ⟨none, some (.str [10])⟩) = .error .invalidPadChar ∧
    mkBase32 (some ⟨some [65], none⟩) = .error .invalidAlphabetLength :=
  ⟨mkBase32_defaults.2.2.2.1 (.str [10]) .invalidPadChar (by decide),
   mkBase32_defaults.2.2.2.2 [65] .invalidAlphabetLength (by decide) (by decide)⟩

/-- Claim C7: validation is idempotent — a successful `checkEncoder` returns
its input unchanged and succeeds again on its own output with the same pad
character, and a successful `checkPadChar` result re-validates to itself. -/
theorem validation_idempotent :
    (∀ e p a, checkEncoder (some e) p 32 = .ok a →
      a = e ∧ checkEncoder (some a) p 32 = .ok a) ∧
    (∀ v r, checkPadChar v = .ok r → checkPadChar (padResultToInput r) = .ok r) := by
  constructor
  · intro e p a h
    obtain ⟨rfl, h1, h2, h3⟩ := checkEncoder_ok e p 32 a h
    refine ⟨rfl, ?_⟩
    simp only [checkEncoder, h3]
    rw [if_neg (by push_neg; exact ⟨h1, h2⟩)]
  · intro v r h
    match v with
    | .nonString =>
      have hr : r = none := by simpa [checkPadChar] using h.symm
      rw [hr]
      rfl
    | .str [] =>
      have hr : r = some [] := by simpa [checkPadChar] using h.symm
      rw [hr]
      rfl
    | .str (u :: rest) =>
      simp only [checkPadChar] at h
      split at h
      · exact absurd h (by simp)
      · rename_i hcond
        have hr : r = some [u] := by simpa using h.symm
        rw [hr]
        simp only [padResultToInput, checkPadChar]
        rw [if_neg hcond]

/-- Claim C7 witness: idempotence at the standard alphabet and pad `=`. -/
theorem validation_idempotent_witness :
    (Base32StdEncoder = Base32StdEncoder ∧
      checkEncoder (some Base32StdEncoder) [61] 32 = .ok Base32StdEncoder) ∧
    checkPadChar (padResultToInput (some [61])) = .ok (some [61]) :=
  ⟨validation_idempotent.1 Base32StdEncoder [61] Base32StdEncoder (by decide),
   validation_idempotent.2 (.str [61]) (some [61]) (by decide)⟩

/-- Claim C8 (amended): the snapshot and canonical `encodeLength` agree
exactly when padding is disabled or `len ≡ 1 (mod 5)`; with padding and any
other residue the missing inner floor makes the snapshot larger. -/
theorem encodeLengthSnap_eq_iff (len : Nat) (p : JSString) :
    encodeLengthSnap len p = encodeLength len p ↔ (p = [] ∨ len % 5 = 1) := by
  unfold encodeLengthSnap encodeLength
  by_cases hp : p = []
  · simp [hp]
  · simp only [if_neg hp]
    constructor
    · intro h
      right
      omega
    · rintro (h | h)
      · exact absurd h hp
      · omega

/-- Claim C8 counterexample: at input length 2 with pad `=`, the snapshot
returns 9 while the canonical version returns 8. -/
theorem encodeLengthSnap_cex :
    encodeLengthSnap 2 [61] = 9 ∧ encodeLength 2 [61] = 8 ∧
    encodeLengthSnap 2 [61] ≠ encodeLength 2 [61] := by
  refine ⟨rfl, rfl, by decide⟩

/-- Claim C9: with a pad character the canonical `encodeLength` is a
multiple of 8, and dominates the padding-disabled length. -/
theorem encodeLength_padded_props (len : Nat) (p : JSString) (hp : p ≠ []) :
    encodeLength len p % 8 = 0 ∧ encodeLength len [] ≤ encodeLength len p := by
  unfold encodeLength
  rw [if_neg hp, if_pos rfl]
  omega

/-- Claim C9 witness: evaluated at `len = 3` with pad `=`. -/
theorem encodeLength_padded_props_witness :
    encodeLength 3 [61] % 8 = 0 ∧ encodeLength 3 [] ≤ encodeLength 3 [61] :=
  encodeLength_padded_props 3 [61] (by decide)

/-- Claim C10: an absent (`undefined`/`null`) alphabet is rejected with the
invalid-alphabet-length error by the guarded optional length access — no
crash, no acceptance. -/
theorem checkEncoder_absent (p : JSString) (base : Nat) :
    checkEncoder none p base = .error .invalidAlphabetLength := rfl

end Base32
